import Mathlib

/-!
Shallow embedding of the `holy_diver` configuration library
(`src/holy_diver/config.py`, `src/holy_diver/config_list.py`,
`src/holy_diver/config_mixin.py`, `src/holy_diver/constants.py`).

Python values reachable through a `Config`/`ConfigList` are modelled by the
inductive type `Item`: raw dicts/lists/tuples/sets, the two wrapper types
(`Config` is `.config`, `ConfigList` is `.configList`), and scalars.
Python dicts are insertion-ordered with unique keys; they are modelled as
association lists in insertion order.  Fallible Python code (raising
`ValueError`, `KeyError`, `IndexError`, `TypeError`, `AttributeError`) is
modelled with `Except Err`, written out as explicit matches (propagating
the first error, as exceptions do).
-/

namespace HolyDiver

/-- Python scalar leaf values (ints, strings, booleans, `None`). -/
inductive Scalar where
  | int (n : Int)
  | str (s : String)
  | bool (b : Bool)
  | none
deriving DecidableEq, Repr

/-- The Python exceptions raised by the library, by kind.
`invalidKey` is the `ValueError` raised by `check_keys` (the spec's
`InvalidKeyError`); `missingKeys` is the `KeyError` raised by
`check_required_keys` (the spec's `MissingKeysError`) carrying the sorted
missing-key list; `invalidArgument` is the `ValueError` for a bad
`if_missing` policy. -/
inductive Err where
  | invalidKey (k : String)
  | keyNotFound
  | indexOutOfRange
  | missingKeys (ks : List String)
  | invalidArgument
  | valueError
  | typeError
  | attributeError
deriving DecidableEq, Repr

/-- A Python value as seen by the library: scalars, raw containers
(`dict`, `list`, `tuple`, `set` — a set is represented by its iteration
sequence), and the two wrapper classes.  `.config kvs` is a `Config`
whose `.data` dict holds the bindings `kvs`; `.configList xs` is a
`ConfigList` whose `.data` list holds `xs`. -/
inductive Item where
  | scalar (s : Scalar)
  | dict (kvs : List (String × Item))
  | list (xs : List Item)
  | tuple (xs : List Item)
  | set (xs : List Item)
  | config (kvs : List (String × Item))
  | configList (xs : List Item)
deriving Repr

/-! ### Key patterns (`constants.py`) and `check_keys` (`config.py`) -/

/-- Python regex `\w` on ASCII input: letters, digits, underscore. -/
def isWordChar (c : Char) : Bool := c.isAlpha || c.isDigit || c = '_'

/-- `^[a-zA-Z_][a-zA-Z0-9_]*$` — the alphanumeric attribute-name pattern
of `check_keys`. -/
def isIdentKey (k : String) : Bool :=
  match k.data with
  | [] => false
  | c :: cs => (c.isAlpha || c = '_') && cs.all isWordChar

/-- `DUNDER = ^__.*__$` (needs length at least 4: two leading and two
trailing underscores that do not overlap). -/
def isDunder (k : String) : Bool :=
  let cs := k.data
  decide (4 ≤ cs.length) && decide (cs.take 2 = ['_', '_'])
    && decide (cs.drop (cs.length - 2) = ['_', '_'])

/-- `PRIVATE = ^_.*$` — any nonempty key starting with an underscore. -/
def isPrivate (k : String) : Bool :=
  match k.data with
  | '_' :: _ => true
  | _ => false

/-- `PROTECTED_KEYS` from `config.py`: the six explicit operation names
plus `dir(UserDict())`.  The dunder members of `dir(UserDict())` are
omitted: `check_keys` rejects dunder keys by the `DUNDER` pattern before
ever reaching the reserved-name test, and `is_protected` tests the dunder
pattern separately, so only the non-dunder members are observable. -/
def PROTECTED_KEYS : List String :=
  ["depth", "deep_keys", "check_required_keys", "convert", "deconvert",
   "to_string",
   "clear", "copy", "data", "fromkeys", "get", "items", "keys", "pop",
   "popitem", "setdefault", "update", "values"]

/-- One key's validation in `check_keys`: the four tests in source order
(alphanumeric pattern, dunder pattern, private pattern, reserved set),
each failure raising `ValueError` (`InvalidKeyError`). -/
def checkKey (k : String) : Except Err Unit :=
  if ¬ isIdentKey k then .error (.invalidKey k)
  else if isDunder k then .error (.invalidKey k)
  else if isPrivate k then .error (.invalidKey k)
  else if k ∈ PROTECTED_KEYS then .error (.invalidKey k)
  else .ok ()

/-- `check_keys(keys)`: validate each key in order, fail-fast. -/
def checkKeys : List String → Except Err Unit
  | [] => .ok ()
  | k :: ks =>
      match checkKey k with
      | .ok _ => checkKeys ks
      | .error e => .error e

/-- A key that passes all four `check_keys` tests. -/
def validKey (k : String) : Bool :=
  isIdentKey k && !isDunder k && !isPrivate k && decide (k ∉ PROTECTED_KEYS)

/-! ### Conversion (`Config.convert_item` / `ConfigList.convert_item`)

`convert_item` turns a raw `dict` into a `Config` (via the `Config`
constructor, whose `__init__` re-validates that dict's keys after the
dict-comprehension has converted all the values) and a raw
`list`/`tuple`/`set` into a `ConfigList`; scalars and already-wrapped
values are returned unchanged.  The value conversions of a dict run
before `Config.__init__` checks the keys, hence the order below. -/

mutual

def convertItem : Item → Except Err Item
  | .scalar s => .ok (.scalar s)
  | .dict kvs =>
      match convertPairs kvs with
      | .ok kvs' =>
          match checkKeys (kvs'.map Prod.fst) with
          | .ok _ => .ok (.config kvs')
          | .error e => .error e
      | .error e => .error e
  | .list xs =>
      match convertElems xs with
      | .ok xs' => .ok (.configList xs')
      | .error e => .error e
  | .tuple xs =>
      match convertElems xs with
      | .ok xs' => .ok (.configList xs')
      | .error e => .error e
  | .set xs =>
      match convertElems xs with
      | .ok xs' => .ok (.configList xs')
      | .error e => .error e
  | .config kvs => .ok (.config kvs)
  | .configList xs => .ok (.configList xs)

def convertPairs : List (String × Item) → Except Err (List (String × Item))
  | [] => .ok []
  | (k, v) :: rest =>
      match convertItem v with
      | .ok v' =>
          match convertPairs rest with
          | .ok rest' => .ok ((k, v') :: rest')
          | .error e => .error e
      | .error e => .error e

def convertElems : List Item → Except Err (List Item)
  | [] => .ok []
  | x :: rest =>
      match convertItem x with
      | .ok x' =>
          match convertElems rest with
          | .ok rest' => .ok (x' :: rest')
          | .error e => .error e
      | .error e => .error e

end

/-! ### Deconversion (`Config.deconvert_item` / `ConfigList.deconvert_item`)

`deconvert_item` maps a `Config` to a plain dict and a
`ConfigList`/`tuple`/`set` to a plain list, recursively; anything else —
including a raw dict or a raw list — is returned unchanged. -/

mutual

def deconvertItem : Item → Item
  | .scalar s => .scalar s
  | .dict kvs => .dict kvs
  | .list xs => .list xs
  | .tuple xs => .list (deconvertElems xs)
  | .set xs => .list (deconvertElems xs)
  | .config kvs => .dict (deconvertPairs kvs)
  | .configList xs => .list (deconvertElems xs)

def deconvertPairs : List (String × Item) → List (String × Item)
  | [] => []
  | (k, v) :: rest => (k, deconvertItem v) :: deconvertPairs rest

def deconvertElems : List Item → List Item
  | [] => []
  | x :: rest => deconvertItem x :: deconvertElems rest

end

mutual

/-- An `Item` built only from dicts, lists and scalars (the `RawNode`s of
the round-trip property). -/
def isDLS : Item → Bool
  | .scalar _ => true
  | .dict kvs => isDLSPairs kvs
  | .list xs => isDLSElems xs
  | _ => false

def isDLSPairs : List (String × Item) → Bool
  | [] => true
  | (_, v) :: rest => isDLS v && isDLSPairs rest

def isDLSElems : List Item → Bool
  | [] => true
  | x :: rest => isDLS x && isDLSElems rest

end

mutual

/-- An `Item` built only from raw constructors (dict/list/tuple/set/scalar),
i.e. plain parser output containing no wrapper. -/
def isRaw : Item → Bool
  | .scalar _ => true
  | .dict kvs => isRawPairs kvs
  | .list xs => isRawElems xs
  | .tuple xs => isRawElems xs
  | .set xs => isRawElems xs
  | _ => false

def isRawPairs : List (String × Item) → Bool
  | [] => true
  | (_, v) :: rest => isRaw v && isRawPairs rest

def isRawElems : List Item → Bool
  | [] => true
  | x :: rest => isRaw x && isRawElems rest

end

mutual

/-- An `Item` in which no raw container survives: every mapping is a
`Config` and every sequence a `ConfigList` — the "conversion closure". -/
def fullyConverted : Item → Bool
  | .scalar _ => true
  | .config kvs => fullyConvertedPairs kvs
  | .configList xs => fullyConvertedElems xs
  | _ => false

def fullyConvertedPairs : List (String × Item) → Bool
  | [] => true
  | (_, v) :: rest => fullyConverted v && fullyConvertedPairs rest

def fullyConvertedElems : List Item → Bool
  | [] => true
  | x :: rest => fullyConverted x && fullyConvertedElems rest

end

/-! ### Python dict primitives

`dictGet` is `d.get(k)` / `d[k]` lookup (first — and, keys being unique,
only — binding).  `dictSet` is `d[k] = v`: update in place when the key
exists, preserving its position, else append at the end. -/

def dictGet (kvs : List (String × Item)) (k : String) : Option Item :=
  match kvs with
  | [] => Option.none
  | (k', v) :: rest => if k' = k then some v else dictGet rest k

def dictSet (kvs : List (String × Item)) (k : String) (v : Item) :
    List (String × Item) :=
  match kvs with
  | [] => [(k, v)]
  | (k', v') :: rest =>
      if k' = k then (k, v) :: rest else (k', v') :: dictSet rest k v

/-! ### `deep_merge` (`config.py`)

`deep_merge(d1, d2)` copies `d1` and then, for each binding `(k, v)` of
`d2` in order: when `v` is a dict, stores `deep_merge(d1.get(k, {}), v)`
at `k`; otherwise stores `v` wholesale.  When the existing value at `k`
is not a dict but `v` is, the source crashes (the recursive call does
`merged = d1.copy()` on a scalar, an `AttributeError`, or later treats a
list/wrapper as a dict); that region is modelled by a single error. -/

mutual

def deepMergeE (d1 : List (String × Item)) :
    List (String × Item) → Except Err (List (String × Item))
  | [] => .ok d1
  | (k, v) :: rest =>
      match mergeStep d1 k v with
      | .ok d1' => deepMergeE d1' rest
      | .error e => .error e

/-- The body of `deep_merge`'s loop for one binding `(k, v)` of the
override. -/
def mergeStep (d1 : List (String × Item)) (k : String) :
    Item → Except Err (List (String × Item))
  | .dict v2 =>
      (match dictGet d1 k with
      | Option.none =>
          (match deepMergeE [] v2 with
          | .ok inner => .ok (dictSet d1 k (.dict inner))
          | .error e => .error e)
      | some (.dict m) =>
          (match deepMergeE m v2 with
          | .ok inner => .ok (dictSet d1 k (.dict inner))
          | .error e => .error e)
      | some _ => .error .attributeError)
  | v => .ok (dictSet d1 k v)

end

/-! ### `Config.__init__`

Construction validates the top-level keys of `defaults` and of `data`
(in that order) and produces the merged content: with both arguments the
content is `deep_merge(defaults, data)` (via `self.data.update(defaults)`
followed by the in-place merge of `data`); with one argument that
argument is used directly; with neither the content is empty.  The
optional `required_keys` check is `check_required_keys`, modelled
separately. -/

def configInit (defaults : Option (List (String × Item)))
    (data : Option (List (String × Item))) :
    Except Err (List (String × Item)) :=
  match defaults, data with
  | some df, some dt =>
      (match checkKeys (df.map Prod.fst) with
      | .ok _ =>
          (match checkKeys (dt.map Prod.fst) with
          | .ok _ => deepMergeE df dt
          | .error e => .error e)
      | .error e => .error e)
  | some df, Option.none =>
      (match checkKeys (df.map Prod.fst) with
      | .ok _ => .ok df
      | .error e => .error e)
  | Option.none, some dt =>
      (match checkKeys (dt.map Prod.fst) with
      | .ok _ => .ok dt
      | .error e => .error e)
  | Option.none, Option.none => .ok []

/-- `Config.__setitem__`: `self.data[key] = self.convert_item(item)` —
note that no key validation happens on assignment. -/
def configSetItem (kvs : List (String × Item)) (k : String) (v : Item) :
    Except Err (List (String × Item)) :=
  match convertItem v with
  | .ok v' => .ok (dictSet kvs k v')
  | .error e => .error e

/-! ### Dotted-key patterns (`constants.py`) and numeric indices -/

/-- Splitting a character list on `'.'`, keeping empty pieces — the
behavior of Python's `key.split(".")`. -/
def splitDot : List Char → List (List Char)
  | [] => [[]]
  | c :: rest =>
      if c = '.' then [] :: splitDot rest
      else
        match splitDot rest with
        | s :: ss => (c :: s) :: ss
        | [] => [[c]]

/-- The dot-separated segments of a key (`key.split(".")`). -/
def segs (k : String) : List String := (splitDot k.data).map String.mk

/-- `DEEP_KEY = ^(?:\w+\.)*\w+$`: every dot-separated segment is a
nonempty run of word characters. -/
def isDeepKey (k : String) : Bool :=
  (segs k).all fun s => decide (s ≠ "") && s.data.all isWordChar

/-- `DEEP_KEY_PROPER = ^(?:\w+\.)+\w+$`: a deep key with at least two
segments (i.e. containing a dot). -/
def isDeepKeyProper (k : String) : Bool :=
  isDeepKey k && decide (2 ≤ (segs k).length)

/-- Decimal value of a nonempty all-digit character list (matching how
Python's `int` reads the digits captured by `([0-9]+)`). -/
def parseDigits (cs : List Char) : Option Nat :=
  if cs ≠ [] ∧ cs.all Char.isDigit then
    some (cs.foldl (fun acc c => 10 * acc + (c.toNat - 48)) 0)
  else Option.none

/-- `ConfigList._attr_idx_pat = ^_?([0-9]+)$` together with
`ConfigList.as_int`: an optional leading underscore followed by digits,
yielding the integer position. -/
def strIdx (s : String) : Option Nat :=
  match s.data with
  | '_' :: rest => parseDigits rest
  | cs => parseDigits cs

/-! ### `deep_keys`

`Config.deep_keys` converts itself and walks the converted tree: it
emits every top-level key, and for each wrapper value also every child
key prefixed by `key.`.  `ConfigList.deep_keys` likewise converts itself
and emits `_i` for each position, plus `_i.`-prefixed child keys.  The
walk below (`deepKeysC`) is the recursion on the converted tree: each
nested wrapper's own `deep_keys()` re-converts data that the enclosing
conversion already converted, which is the identity there, so
`Config.deep_keys` is `deepKeysC` composed with the conversion
(`configDeepKeys`). -/

mutual

def deepKeysC : Item → List String
  | .config kvs => deepKeysPairs kvs
  | .configList xs => deepKeysElems 0 xs
  | _ => []

def deepKeysPairs : List (String × Item) → List String
  | [] => []
  | (k, v) :: rest =>
      (k :: (deepKeysChild v).map fun s => k ++ "." ++ s)
        ++ deepKeysPairs rest

def deepKeysElems (i : Nat) : List Item → List String
  | [] => []
  | v :: rest =>
      (("_" ++ toString i) ::
        (deepKeysChild v).map fun s => "_" ++ toString i ++ "." ++ s)
        ++ deepKeysElems (i + 1) rest

def deepKeysChild : Item → List String
  | .config kvs => deepKeysPairs kvs
  | .configList xs => deepKeysElems 0 xs
  | _ => []

end

/-- `Config.deep_keys()` on a `Config` whose `.data` is `kvs`: convert
(`convert_item(self.data)`, which re-validates the keys), then walk. -/
def configDeepKeys (kvs : List (String × Item)) : Except Err (List String) :=
  match convertItem (.dict kvs) with
  | .ok c => .ok (deepKeysC c)
  | .error e => .error e

/-- `ConfigList.deep_keys()` on a `ConfigList` whose `.data` is `xs`. -/
def configListDeepKeys (xs : List Item) : Except Err (List String) :=
  match convertItem (.list xs) with
  | .ok c => .ok (deepKeysC c)
  | .error e => .error e

/-- Number of dots in a key (`k.count(".")`). -/
def countDots (k : String) : Nat := k.data.count '.'

/-- `Config.depth`: `max([k.count(".") for k in self.deep_keys()])` —
Python's `max` raises `ValueError` on an empty sequence. -/
def configDepth (kvs : List (String × Item)) : Except Err Nat :=
  match configDeepKeys kvs with
  | .ok ks =>
      (match ks.map countDots with
      | [] => .error .valueError
      | c :: cs => .ok (cs.foldl max c))
  | .error e => .error e

/-! ### `check_required_keys` (`config_mixin.py` / `config.py`)

`missing = sorted(set(keys) - set(self.deep_keys()))` — the ascending
enumeration of the distinct required keys absent from `deep_keys()`.
The policy string is validated first; `"raise"` fails with the
`MissingKeysError` carrying `missing` when it is nonempty; `"warn"`
emits a warning (the `Bool` in the result) and returns `missing`;
`"return"` returns it silently. -/

def sortStrings (l : List String) : List String :=
  l.insertionSort (· ≤ ·)

def checkRequiredKeys (kvs : List (String × Item)) (keys : List String)
    (ifMissing : String) : Except Err (List String × Bool) :=
  if ifMissing ≠ "raise" ∧ ifMissing ≠ "warn" ∧ ifMissing ≠ "return" then
    .error .invalidArgument
  else
    match configDeepKeys kvs with
    | .ok dk =>
        let missing := sortStrings ((keys.filter fun s => decide (s ∉ dk)).dedup)
        if missing ≠ [] then
          if ifMissing = "raise" then .error (.missingKeys missing)
          else if ifMissing = "warn" then .ok (missing, true)
          else .ok (missing, false)
        else .ok (missing, false)
    | .error e => .error e

/-! ### One level of indexing on a converted value

`deep_get` splits the key on `.` and performs `value = value[k]` for each
segment, starting from `self.convert()`.  A split segment never contains
a dot, so `Config.__getitem__`'s `DEEP_KEY_PROPER` branch and
`ConfigList.__getitem__`'s dotted branch are dead inside the loop; the
remaining behavior is: a `Config` re-converts its data and looks the
segment up (`KeyError` when absent), a `ConfigList` accepts an optionally
underscore-prefixed digit string (`IndexError` when out of range) and
raises `TypeError` on any other string, and indexing a scalar raises
`TypeError`.  Raw containers cannot occur as the traversed value (it is
always the output of a conversion). -/

def getStep (v : Item) (seg : String) : Except Err Item :=
  match v with
  | .config kvs =>
      (match convertItem (.dict kvs) with
      | .ok (.config kvs') =>
          (match dictGet kvs' seg with
          | some u => .ok u
          | Option.none => .error .keyNotFound)
      | .ok _ => .error .typeError
      | .error e => .error e)
  | .configList xs =>
      (match strIdx seg with
      | some n =>
          (match convertElems xs with
          | .ok ys =>
              (match ys.get? n with
              | some u => .ok u
              | Option.none => .error .indexOutOfRange)
          | .error e => .error e)
      | Option.none =>
          (match convertElems xs with
          | .ok _ => .error .typeError
          | .error e => .error e))
  | _ => .error .typeError

/-- The `for k in keys: value = value[k]` loop of `deep_get`. -/
def walkSegs (v : Item) : List String → Except Err Item
  | [] => .ok v
  | s :: rest =>
      match getStep v s with
      | .ok v' => walkSegs v' rest
      | .error e => .error e

/-- `ConfigMixin.deep_get` / `Config.deep_get` on a `Config`: validate the
key against `DEEP_KEY`, convert, then index one segment at a time. -/
def configDeepGet (kvs : List (String × Item)) (key : String) :
    Except Err Item :=
  if ¬ isDeepKey key then .error .valueError
  else
    match convertItem (.dict kvs) with
    | .ok c => walkSegs c (segs key)
    | .error e => .error e

/-- `deep_get` on a `ConfigList`. -/
def clDeepGet (xs : List Item) (key : String) : Except Err Item :=
  if ¬ isDeepKey key then .error .valueError
  else
    match convertItem (.list xs) with
    | .ok c => walkSegs c (segs key)
    | .error e => .error e

/-- `Config.__getitem__`: a proper dotted key delegates to `deep_get`,
anything else is one converted-level lookup. -/
def configGetItem (kvs : List (String × Item)) (key : String) :
    Except Err Item :=
  if isDeepKeyProper key then configDeepGet kvs key
  else
    match convertItem (.dict kvs) with
    | .ok (.config kvs') =>
        (match dictGet kvs' key with
        | some u => .ok u
        | Option.none => .error .keyNotFound)
    | .ok _ => .error .typeError
    | .error e => .error e

/-- `ConfigList.__getitem__` with a string index (the slice case is not
modelled): an `^_?[0-9]+$` string indexes positionally into the converted
data; a proper dotted key delegates to `deep_get`; any other string
raises `TypeError` (list indices must be integers). -/
def clGetItemStr (xs : List Item) (s : String) : Except Err Item :=
  match strIdx s with
  | some n =>
      (match convertElems xs with
      | .ok ys =>
          (match ys.get? n with
          | some u => .ok u
          | Option.none => .error .indexOutOfRange)
      | .error e => .error e)
  | Option.none =>
      if isDeepKeyProper s then clDeepGet xs s
      else
        match convertElems xs with
        | .ok _ => .error .typeError
        | .error e => .error e

/-- `ConfigList.__getitem__` with a (nonnegative) integer index:
`self.convert().data[i]`. -/
def clGetItemNat (xs : List Item) (i : Nat) : Except Err Item :=
  match convertElems xs with
  | .ok ys =>
      (match ys.get? i with
      | some u => .ok u
      | Option.none => .error .indexOutOfRange)
  | .error e => .error e

/-- `ConfigList.keys()`: the underscore-prefixed positions
`["_0", "_1", ...]`. -/
def clKeys (xs : List Item) : List String :=
  (List.range xs.length).map fun i => "_" ++ toString i

/-- `ConfigList.get(key, default)`: `self[key]` when `key in self.keys()`,
else the default. -/
def clGet (xs : List Item) (key : String) (dflt : Item) : Except Err Item :=
  if key ∈ clKeys xs then clGetItemStr xs key else .ok dflt

/-! ### `deep_items` and `search` (`config_mixin.py` / `config.py`) -/

/-- The `[(k, self.deep_get(k)) for k in ks]` comprehension. -/
def collectItems (kvs : List (String × Item)) :
    List String → Except Err (List (String × Item))
  | [] => .ok []
  | k :: rest =>
      match configDeepGet kvs k with
      | .ok v =>
          (match collectItems kvs rest with
          | .ok items => .ok ((k, v) :: items)
          | .error e => .error e)
      | .error e => .error e

/-- `deep_items()`: `[(k, self.deep_get(k)) for k in self.deep_keys()]`. -/
def deepItems (kvs : List (String × Item)) :
    Except Err (List (String × Item)) :=
  match configDeepKeys kvs with
  | .ok dk => collectItems kvs dk
  | .error e => .error e

/-- The last dot-segment of a key (`k.split(".")[-1]`). -/
def lastSeg (k : String) : String := (segs k).getLastD k

/-- `search(key)` with `regex=False`, `return_values=False`: the
deep items whose key's last segment equals `key` exactly, in
`deep_keys()` order. -/
def searchConfig (kvs : List (String × Item)) (key : String) :
    Except Err (List (String × Item)) :=
  match deepItems kvs with
  | .ok items => .ok (items.filter fun kv => decide (lastSeg kv.1 = key))
  | .error e => .error e

/-- An `Item` that is a scalar leaf (used to state "flat mapping": one
whose values contain no nested mappings or sequences). -/
def isScalarItem : Item → Bool
  | .scalar _ => true
  | _ => false

/-! ## Supporting lemmas -/

theorem checkKey_ok_iff (k : String) : checkKey k = .ok () ↔ validKey k = true := by
  unfold checkKey validKey
  split_ifs with h1 h2 h3 h4 <;> simp_all

theorem checkKey_eq_ok_or (k : String) :
    checkKey k = .ok () ∨ checkKey k = .error (.invalidKey k) := by
  unfold checkKey
  split_ifs <;> simp

theorem checkKeys_ok_iff (ks : List String) :
    checkKeys ks = .ok () ↔ ∀ k ∈ ks, validKey k = true := by
  induction ks with
  | nil => simp [checkKeys]
  | cons k ks ih =>
      cases hck : checkKey k with
      | ok u =>
          cases u
          have hv : validKey k = true := (checkKey_ok_iff k).mp hck
          simp [checkKeys, hck, ih, hv]
      | error e =>
          have hv : ¬ validKey k = true := by
            intro hv
            rw [← checkKey_ok_iff] at hv
            rw [hck] at hv
            exact Except.noConfusion hv
          simp only [checkKeys, hck]
          constructor
          · intro h
            exact absurd h (by simp)
          · intro hall
            exact absurd (hall k (by simp)) hv

theorem checkKeys_error_of_invalid {ks : List String} {k : String}
    (hk : k ∈ ks) (hv : validKey k = false) :
    ∃ k', checkKeys ks = .error (.invalidKey k') ∧ validKey k' = false := by
  induction ks with
  | nil => cases hk
  | cons a ks ih =>
      rcases checkKey_eq_ok_or a with ha | ha
      · rcases List.mem_cons.mp hk with rfl | hk'
        · rw [checkKey_ok_iff] at ha
          rw [ha] at hv
          cases hv
        · obtain ⟨k', h1, h2⟩ := ih hk'
          exact ⟨k', by simp [checkKeys, ha, h1], h2⟩
      · refine ⟨a, by simp [checkKeys, ha], ?_⟩
        have : ¬ checkKey a = .ok () := by
          rw [ha]
          simp
        rw [checkKey_ok_iff] at this
        simpa using this

theorem checkKeys_append_singleton {ks : List String} {k : String}
    (h : checkKeys ks = .ok ()) (hk : checkKey k = .ok ()) :
    checkKeys (ks ++ [k]) = .ok () := by
  induction ks with
  | nil => simp [checkKeys, hk]
  | cons a ks ih =>
      cases ha : checkKey a with
      | ok u =>
          cases u
          rw [checkKeys, ha] at h
          simpa [checkKeys, ha] using ih h
      | error e =>
          rw [checkKeys, ha] at h
          exact absurd h (by simp)

/-! ### Dict primitive lemmas -/

theorem dictGet_dictSet_self (kvs : List (String × Item)) (k : String)
    (v : Item) : dictGet (dictSet kvs k v) k = some v := by
  induction kvs with
  | nil => simp [dictGet, dictSet]
  | cons kv rest ih =>
      obtain ⟨k', v'⟩ := kv
      by_cases h : k' = k
      · simp [dictGet, dictSet, h]
      · simp [dictGet, dictSet, h, ih]

theorem dictGet_dictSet_ne (kvs : List (String × Item)) {k k' : String}
    (v : Item) (h : k' ≠ k) : dictGet (dictSet kvs k v) k' = dictGet kvs k' := by
  induction kvs with
  | nil => simp [dictGet, dictSet, Ne.symm h]
  | cons kv rest ih =>
      obtain ⟨k₁, v₁⟩ := kv
      by_cases h₁ : k₁ = k
      · subst h₁
        simp [dictGet, dictSet, Ne.symm h]
      · simp only [dictSet, if_neg h₁, dictGet]
        by_cases h₂ : k₁ = k'
        · simp [h₂]
        · simp [h₂, ih]

theorem keys_dictSet (kvs : List (String × Item)) (k : String) (v : Item) :
    (dictSet kvs k v).map Prod.fst =
      if k ∈ kvs.map Prod.fst then kvs.map Prod.fst
      else kvs.map Prod.fst ++ [k] := by
  induction kvs with
  | nil => simp [dictSet]
  | cons kv rest ih =>
      obtain ⟨k₁, v₁⟩ := kv
      by_cases h₁ : k₁ = k
      · simp [dictSet, h₁]
      · have : ¬ k = k₁ := fun hh => h₁ hh.symm
        simp only [dictSet, if_neg h₁, List.map_cons, List.mem_cons, this,
          false_or, ih]
        split_ifs <;> simp

/-! ### Segment-splitting lemmas -/

theorem splitDot_no_dot {cs : List Char} (h : '.' ∉ cs) :
    splitDot cs = [cs] := by
  induction cs with
  | nil => rfl
  | cons c rest ih =>
      have hc : ¬ c = '.' := fun hh => h (hh ▸ List.mem_cons_self c rest)
      have hrest : '.' ∉ rest := fun hh => h (List.mem_cons_of_mem c hh)
      rw [splitDot, if_neg hc, ih hrest]

theorem segs_no_dot {k : String} (h : '.' ∉ k.data) : segs k = [k] := by
  cases k with
  | mk l =>
      simp only [segs] at *
      rw [splitDot_no_dot h]
      rfl

theorem isDeepKeyProper_eq_false_of_no_dot {k : String} (h : '.' ∉ k.data) :
    isDeepKeyProper k = false := by
  simp [isDeepKeyProper, segs_no_dot h]

theorem isWordChar_dot : isWordChar '.' = false := by decide

theorem no_dot_of_isIdentKey {k : String} (h : isIdentKey k = true) :
    '.' ∉ k.data := by
  intro hmem
  unfold isIdentKey at h
  cases hd : k.data with
  | nil => rw [hd] at hmem; cases hmem
  | cons c cs =>
      rw [hd] at h hmem
      simp only [] at h
      rcases List.mem_cons.mp hmem with rfl | hmem'
      · have := (Bool.and_eq_true _ _).mp h |>.1
        revert this
        decide
      · have hall := (Bool.and_eq_true _ _).mp h |>.2
        have := List.all_eq_true.mp hall '.' hmem'
        rw [isWordChar_dot] at this
        cases this

theorem countDots_eq_zero_of_isIdentKey {k : String}
    (h : isIdentKey k = true) : countDots k = 0 := by
  unfold countDots
  exact List.count_eq_zero.mpr (no_dot_of_isIdentKey h)

/-! ### Fold-max lemmas (Python `max` over a nonempty list) -/

theorem le_foldl_max (c : Nat) (cs : List Nat) :
    ∀ x ∈ c :: cs, x ≤ cs.foldl max c := by
  induction cs generalizing c with
  | nil => intro x hx; simp at hx; simp [hx]
  | cons d ds ih =>
      intro x hx
      rcases List.mem_cons.mp hx with rfl | hx'
      · calc x ≤ max x d := le_max_left x d
          _ ≤ ds.foldl max (max x d) := ih (max x d) _ (List.mem_cons_self _ _)
          _ = (d :: ds).foldl max x := by simp [List.foldl]
      · rcases List.mem_cons.mp hx' with rfl | hx''
        · calc x ≤ max c x := le_max_right c x
            _ ≤ ds.foldl max (max c x) := ih (max c x) _ (List.mem_cons_self _ _)
            _ = (x :: ds).foldl max c := by simp [List.foldl]
        · calc x ≤ ds.foldl max (max c d) :=
              ih (max c d) x (List.mem_cons_of_mem _ hx'')
            _ = (d :: ds).foldl max c := by simp [List.foldl]

theorem foldl_max_mem (c : Nat) (cs : List Nat) :
    cs.foldl max c ∈ c :: cs := by
  induction cs generalizing c with
  | nil => simp [List.foldl]
  | cons d ds ih =>
      simp only [List.foldl]
      have h := ih (max c d)
      rcases List.mem_cons.mp h with h' | h'
      · rw [h']
        rcases max_choice c d with hm | hm <;> rw [hm] <;> simp
      · exact List.mem_cons_of_mem _ (List.mem_cons_of_mem _ h')

/-! ### Conversion lemmas -/

/-- A conversion result converts to itself: the output's head constructor
is never a raw container, and `convert_item` returns wrappers and scalars
unchanged. -/
theorem convertItem_fix {x y : Item} (h : convertItem x = .ok y) :
    convertItem y = .ok y := by
  cases x with
  | scalar s =>
      simp only [convertItem, Except.ok.injEq] at h
      subst h
      simp [convertItem]
  | dict kvs =>
      cases hcp : convertPairs kvs with
      | error e => simp [convertItem, hcp] at h
      | ok kvs' =>
          cases hck : checkKeys (kvs'.map Prod.fst) with
          | error e => simp [convertItem, hcp, hck] at h
          | ok u =>
              simp only [convertItem, hcp, hck, Except.ok.injEq] at h
              subst h
              simp [convertItem]
  | list xs =>
      cases hce : convertElems xs with
      | error e => simp [convertItem, hce] at h
      | ok xs' =>
          simp only [convertItem, hce, Except.ok.injEq] at h
          subst h
          simp [convertItem]
  | tuple xs =>
      cases hce : convertElems xs with
      | error e => simp [convertItem, hce] at h
      | ok xs' =>
          simp only [convertItem, hce, Except.ok.injEq] at h
          subst h
          simp [convertItem]
  | set xs =>
      cases hce : convertElems xs with
      | error e => simp [convertItem, hce] at h
      | ok xs' =>
          simp only [convertItem, hce, Except.ok.injEq] at h
          subst h
          simp [convertItem]
  | config kvs =>
      simp only [convertItem, Except.ok.injEq] at h
      subst h
      simp [convertItem]
  | configList xs =>
      simp only [convertItem, Except.ok.injEq] at h
      subst h
      simp [convertItem]

/-- Converting a dict's values preserves its keys, in order. -/
theorem convertPairs_keys : ∀ {kvs kvs' : List (String × Item)},
    convertPairs kvs = .ok kvs' → kvs'.map Prod.fst = kvs.map Prod.fst := by
  intro kvs
  induction kvs with
  | nil =>
      intro kvs' h
      simp only [convertPairs, Except.ok.injEq] at h
      subst h
      rfl
  | cons kv rest ih =>
      obtain ⟨k, v⟩ := kv
      intro kvs' h
      cases hcv : convertItem v with
      | error e => simp [convertPairs, hcv] at h
      | ok v' =>
          cases hcr : convertPairs rest with
          | error e => simp [convertPairs, hcv, hcr] at h
          | ok rest' =>
              simp only [convertPairs, hcv, hcr, Except.ok.injEq] at h
              subst h
              simp [ih hcr]

mutual

/-- Round-trip on dict/list/scalar values: whenever conversion succeeds,
deconversion inverts it. -/
theorem roundtripDLS : ∀ x, isDLS x = true → ∀ y, convertItem x = .ok y →
    deconvertItem y = x
  | .scalar s, _, y, h => by
      simp only [convertItem, Except.ok.injEq] at h
      subst h
      simp [deconvertItem]
  | .dict kvs, hx, y, h => by
      simp only [isDLS] at hx
      cases hcp : convertPairs kvs with
      | error e => simp [convertItem, hcp] at h
      | ok kvs' =>
          cases hck : checkKeys (kvs'.map Prod.fst) with
          | error e => simp [convertItem, hcp, hck] at h
          | ok u =>
              simp only [convertItem, hcp, hck, Except.ok.injEq] at h
              subst h
              simp only [deconvertItem]
              rw [roundtripDLSPairs kvs hx kvs' hcp]
  | .list xs, hx, y, h => by
      simp only [isDLS] at hx
      cases hce : convertElems xs with
      | error e => simp [convertItem, hce] at h
      | ok xs' =>
          simp only [convertItem, hce, Except.ok.injEq] at h
          subst h
          simp only [deconvertItem]
          rw [roundtripDLSElems xs hx xs' hce]
  | .tuple _, hx, _, _ => by simp [isDLS] at hx
  | .set _, hx, _, _ => by simp [isDLS] at hx
  | .config _, hx, _, _ => by simp [isDLS] at hx
  | .configList _, hx, _, _ => by simp [isDLS] at hx

theorem roundtripDLSPairs : ∀ kvs, isDLSPairs kvs = true →
    ∀ kvs', convertPairs kvs = .ok kvs' → deconvertPairs kvs' = kvs
  | [], _, kvs', h => by
      simp only [convertPairs, Except.ok.injEq] at h
      subst h
      rfl
  | (k, v) :: rest, hx, kvs', h => by
      simp only [isDLSPairs, Bool.and_eq_true] at hx
      cases hcv : convertItem v with
      | error e => simp [convertPairs, hcv] at h
      | ok v' =>
          cases hcr : convertPairs rest with
          | error e => simp [convertPairs, hcv, hcr] at h
          | ok rest' =>
              simp only [convertPairs, hcv, hcr, Except.ok.injEq] at h
              subst h
              simp only [deconvertPairs]
              rw [roundtripDLS v hx.1 v' hcv, roundtripDLSPairs rest hx.2 rest' hcr]

theorem roundtripDLSElems : ∀ xs, isDLSElems xs = true →
    ∀ xs', convertElems xs = .ok xs' → deconvertElems xs' = xs
  | [], _, xs', h => by
      simp only [convertElems, Except.ok.injEq] at h
      subst h
      rfl
  | x :: rest, hx, xs', h => by
      simp only [isDLSElems, Bool.and_eq_true] at hx
      cases hcv : convertItem x with
      | error e => simp [convertElems, hcv] at h
      | ok x' =>
          cases hcr : convertElems rest with
          | error e => simp [convertElems, hcv, hcr] at h
          | ok rest' =>
              simp only [convertElems, hcv, hcr, Except.ok.injEq] at h
              subst h
              simp only [deconvertElems]
              rw [roundtripDLS x hx.1 x' hcv, roundtripDLSElems rest hx.2 rest' hcr]

end

mutual

/-- Converting raw parser output leaves no raw container in the result. -/
theorem convertRawFull : ∀ x, isRaw x = true → ∀ y, convertItem x = .ok y →
    fullyConverted y = true
  | .scalar s, _, y, h => by
      simp only [convertItem, Except.ok.injEq] at h
      subst h
      simp [fullyConverted]
  | .dict kvs, hx, y, h => by
      simp only [isRaw] at hx
      cases hcp : convertPairs kvs with
      | error e => simp [convertItem, hcp] at h
      | ok kvs' =>
          cases hck : checkKeys (kvs'.map Prod.fst) with
          | error e => simp [convertItem, hcp, hck] at h
          | ok u =>
              simp only [convertItem, hcp, hck, Except.ok.injEq] at h
              subst h
              simp only [fullyConverted]
              exact convertRawFullPairs kvs hx kvs' hcp
  | .list xs, hx, y, h => by
      simp only [isRaw] at hx
      cases hce : convertElems xs with
      | error e => simp [convertItem, hce] at h
      | ok xs' =>
          simp only [convertItem, hce, Except.ok.injEq] at h
          subst h
          simp only [fullyConverted]
          exact convertRawFullElems xs hx xs' hce
  | .tuple xs, hx, y, h => by
      simp only [isRaw] at hx
      cases hce : convertElems xs with
      | error e => simp [convertItem, hce] at h
      | ok xs' =>
          simp only [convertItem, hce, Except.ok.injEq] at h
          subst h
          simp only [fullyConverted]
          exact convertRawFullElems xs hx xs' hce
  | .set xs, hx, y, h => by
      simp only [isRaw] at hx
      cases hce : convertElems xs with
      | error e => simp [convertItem, hce] at h
      | ok xs' =>
          simp only [convertItem, hce, Except.ok.injEq] at h
          subst h
          simp only [fullyConverted]
          exact convertRawFullElems xs hx xs' hce
  | .config _, hx, _, _ => by simp [isRaw] at hx
  | .configList _, hx, _, _ => by simp [isRaw] at hx

theorem convertRawFullPairs : ∀ kvs, isRawPairs kvs = true →
    ∀ kvs', convertPairs kvs = .ok kvs' → fullyConvertedPairs kvs' = true
  | [], _, kvs', h => by
      simp only [convertPairs, Except.ok.injEq] at h
      subst h
      rfl
  | (k, v) :: rest, hx, kvs', h => by
      simp only [isRawPairs, Bool.and_eq_true] at hx
      cases hcv : convertItem v with
      | error e => simp [convertPairs, hcv] at h
      | ok v' =>
          cases hcr : convertPairs rest with
          | error e => simp [convertPairs, hcv, hcr] at h
          | ok rest' =>
              simp only [convertPairs, hcv, hcr, Except.ok.injEq] at h
              subst h
              simp only [fullyConvertedPairs, Bool.and_eq_true]
              exact ⟨convertRawFull v hx.1 v' hcv,
                convertRawFullPairs rest hx.2 rest' hcr⟩

theorem convertRawFullElems : ∀ xs, isRawElems xs = true →
    ∀ xs', convertElems xs = .ok xs' → fullyConvertedElems xs' = true
  | [], _, xs', h => by
      simp only [convertElems, Except.ok.injEq] at h
      subst h
      rfl
  | x :: rest, hx, xs', h => by
      simp only [isRawElems, Bool.and_eq_true] at hx
      cases hcv : convertItem x with
      | error e => simp [convertElems, hcv] at h
      | ok x' =>
          cases hcr : convertElems rest with
          | error e => simp [convertElems, hcv, hcr] at h
          | ok rest' =>
              simp only [convertElems, hcv, hcr, Except.ok.injEq] at h
              subst h
              simp only [fullyConvertedElems, Bool.and_eq_true]
              exact ⟨convertRawFull x hx.1 x' hcv,
                convertRawFullElems rest hx.2 rest' hcr⟩

end

/-- Pairs whose values are all scalars convert to themselves. -/
theorem convertPairs_scalar {kvs : List (String × Item)}
    (h : ∀ kv ∈ kvs, ∃ s, kv.2 = Item.scalar s) :
    convertPairs kvs = .ok kvs := by
  induction kvs with
  | nil => rfl
  | cons kv rest ih =>
      obtain ⟨k, v⟩ := kv
      obtain ⟨s, hs⟩ := h (k, v) (List.mem_cons_self _ _)
      simp only at hs
      subst hs
      have hrest := ih fun kv hkv => h kv (List.mem_cons_of_mem _ hkv)
      simp [convertPairs, convertItem, hrest]

/-- The walk over a mapping whose values are all scalars emits exactly
its keys. -/
theorem deepKeysPairs_scalar {kvs : List (String × Item)}
    (h : ∀ kv ∈ kvs, ∃ s, kv.2 = Item.scalar s) :
    deepKeysPairs kvs = kvs.map Prod.fst := by
  induction kvs with
  | nil => rfl
  | cons kv rest ih =>
      obtain ⟨k, v⟩ := kv
      obtain ⟨s, hs⟩ := h (k, v) (List.mem_cons_self _ _)
      simp only at hs
      subst hs
      have hrest := ih fun kv hkv => h kv (List.mem_cons_of_mem _ hkv)
      simp [deepKeysPairs, deepKeysChild, hrest]

/-- `convert_item` over the values of `d[k] = v` when `v` is already a
conversion result. -/
theorem convertPairs_dictSet : ∀ {kvs kvs' : List (String × Item)}
    {k : String} {v : Item}, convertPairs kvs = .ok kvs' →
    convertItem v = .ok v →
    convertPairs (dictSet kvs k v) = .ok (dictSet kvs' k v) := by
  intro kvs
  induction kvs with
  | nil =>
      intro kvs' k v h hv
      simp only [convertPairs, Except.ok.injEq] at h
      subst h
      simp [dictSet, convertPairs, hv]
  | cons kv rest ih =>
      obtain ⟨k₁, v₁⟩ := kv
      intro kvs' k v h hv
      cases hcv : convertItem v₁ with
      | error e => simp [convertPairs, hcv] at h
      | ok v₁' =>
          cases hcr : convertPairs rest with
          | error e => simp [convertPairs, hcv, hcr] at h
          | ok rest' =>
              simp only [convertPairs, hcv, hcr, Except.ok.injEq] at h
              subst h
              by_cases hk : k₁ = k
              · subst hk
                simp [dictSet, convertPairs, hv, hcr]
              · simp [dictSet, hk, convertPairs, hcv, ih hcr hv]

/-! ### Deep-merge lemmas -/

/-- Keys absent from the override are untouched by the merge. -/
theorem deepMergeE_not_mem : ∀ (d2 d1 m : List (String × Item)) (k : String),
    k ∉ d2.map Prod.fst → deepMergeE d1 d2 = .ok m →
    dictGet m k = dictGet d1 k := by
  intro d2
  induction d2 with
  | nil =>
      intro d1 m k _ h
      simp only [deepMergeE, Except.ok.injEq] at h
      subst h
      rfl
  | cons kv rest ih =>
      obtain ⟨k₁, v₁⟩ := kv
      intro d1 m k hk h
      simp only [List.map_cons, List.mem_cons] at hk
      push_neg at hk
      obtain ⟨hk₁, hkrest⟩ := hk
      have hset : ∀ v, dictGet (dictSet d1 k₁ v) k = dictGet d1 k :=
        fun v => dictGet_dictSet_ne d1 v hk₁
      cases v₁ with
      | dict v2 =>
          simp only [deepMergeE, mergeStep] at h
          cases hg : dictGet d1 k₁ with
          | none =>
              simp only [hg] at h
              cases hi : deepMergeE [] v2 with
              | error e => simp [hi] at h
              | ok inner =>
                  simp only [hi] at h
                  rw [ih _ _ _ hkrest h, hset]
          | some w =>
              cases w with
              | dict mm =>
                  simp only [hg] at h
                  cases hi : deepMergeE mm v2 with
                  | error e => simp [hi] at h
                  | ok inner =>
                      simp only [hi] at h
                      rw [ih _ _ _ hkrest h, hset]
              | scalar s => simp only [hg] at h; simp at h
              | list xs => simp only [hg] at h; simp at h
              | tuple xs => simp only [hg] at h; simp at h
              | set xs => simp only [hg] at h; simp at h
              | config kvs => simp only [hg] at h; simp at h
              | configList xs => simp only [hg] at h; simp at h
      | scalar s =>
          simp only [deepMergeE, mergeStep] at h
          rw [ih _ _ _ hkrest h, hset]
      | list xs =>
          simp only [deepMergeE, mergeStep] at h
          rw [ih _ _ _ hkrest h, hset]
      | tuple xs =>
          simp only [deepMergeE, mergeStep] at h
          rw [ih _ _ _ hkrest h, hset]
      | set xs =>
          simp only [deepMergeE, mergeStep] at h
          rw [ih _ _ _ hkrest h, hset]
      | config kvs =>
          simp only [deepMergeE, mergeStep] at h
          rw [ih _ _ _ hkrest h, hset]
      | configList xs =>
          simp only [deepMergeE, mergeStep] at h
          rw [ih _ _ _ hkrest h, hset]

/-- The override wins wholesale at keys whose override value is not a
mapping. -/
theorem deepMergeE_override : ∀ (d2 d1 m : List (String × Item)) (k : String)
    (v : Item), (d2.map Prod.fst).Nodup → dictGet d2 k = some v →
    (∀ kvs, v ≠ .dict kvs) → deepMergeE d1 d2 = .ok m →
    dictGet m k = some v := by
  intro d2
  induction d2 with
  | nil => intro d1 m k v _ hv; simp [dictGet] at hv
  | cons kv rest ih =>
      obtain ⟨k₁, v₁⟩ := kv
      intro d1 m k v hnd hv hvd h
      simp only [List.map_cons, List.nodup_cons] at hnd
      obtain ⟨hk₁rest, hndrest⟩ := hnd
      by_cases hk : k₁ = k
      · subst hk
        simp [dictGet] at hv
        subst hv
        cases v₁ with
        | dict v2 => exact absurd rfl (hvd v2)
        | scalar s =>
            simp only [deepMergeE, mergeStep] at h
            rw [deepMergeE_not_mem rest _ _ _ hk₁rest h,
              dictGet_dictSet_self]
        | list xs =>
            simp only [deepMergeE, mergeStep] at h
            rw [deepMergeE_not_mem rest _ _ _ hk₁rest h,
              dictGet_dictSet_self]
        | tuple xs =>
            simp only [deepMergeE, mergeStep] at h
            rw [deepMergeE_not_mem rest _ _ _ hk₁rest h,
              dictGet_dictSet_self]
        | set xs =>
            simp only [deepMergeE, mergeStep] at h
            rw [deepMergeE_not_mem rest _ _ _ hk₁rest h,
              dictGet_dictSet_self]
        | config kvs =>
            simp only [deepMergeE, mergeStep] at h
            rw [deepMergeE_not_mem rest _ _ _ hk₁rest h,
              dictGet_dictSet_self]
        | configList xs =>
            simp only [deepMergeE, mergeStep] at h
            rw [deepMergeE_not_mem rest _ _ _ hk₁rest h,
              dictGet_dictSet_self]
      · simp only [dictGet, if_neg hk] at hv
        cases v₁ with
        | dict v2 =>
            simp only [deepMergeE, mergeStep] at h
            cases hg : dictGet d1 k₁ with
            | none =>
                simp only [hg] at h
                cases hi : deepMergeE [] v2 with
                | error e => simp [hi] at h
                | ok inner =>
                    simp only [hi] at h
                    exact ih _ _ _ _ hndrest hv hvd h
            | some w =>
                cases w with
                | dict mm =>
                    simp only [hg] at h
                    cases hi : deepMergeE mm v2 with
                    | error e => simp [hi] at h
                    | ok inner =>
                        simp only [hi] at h
                        exact ih _ _ _ _ hndrest hv hvd h
                | scalar s => simp only [hg] at h; simp at h
                | list xs => simp only [hg] at h; simp at h
                | tuple xs => simp only [hg] at h; simp at h
                | set xs => simp only [hg] at h; simp at h
                | config kvs => simp only [hg] at h; simp at h
                | configList xs => simp only [hg] at h; simp at h
        | scalar s =>
            simp only [deepMergeE, mergeStep] at h
            exact ih _ _ _ _ hndrest hv hvd h
        | list xs =>
            simp only [deepMergeE, mergeStep] at h
            exact ih _ _ _ _ hndrest hv hvd h
        | tuple xs =>
            simp only [deepMergeE, mergeStep] at h
            exact ih _ _ _ _ hndrest hv hvd h
        | set xs =>
            simp only [deepMergeE, mergeStep] at h
            exact ih _ _ _ _ hndrest hv hvd h
        | config kvs =>
            simp only [deepMergeE, mergeStep] at h
            exact ih _ _ _ _ hndrest hv hvd h
        | configList xs =>
            simp only [deepMergeE, mergeStep] at h
            exact ih _ _ _ _ hndrest hv hvd h

/-- Where both sides hold a mapping, the merge is the recursive merge. -/
theorem deepMergeE_nested : ∀ (d2 d1 m : List (String × Item)) (k : String)
    (b o : List (String × Item)), (d2.map Prod.fst).Nodup →
    dictGet d2 k = some (.dict o) → dictGet d1 k = some (.dict b) →
    deepMergeE d1 d2 = .ok m →
    ∃ mk, deepMergeE b o = .ok mk ∧ dictGet m k = some (.dict mk) := by
  intro d2
  induction d2 with
  | nil => intro d1 m k b o _ hv; simp [dictGet] at hv
  | cons kv rest ih =>
      obtain ⟨k₁, v₁⟩ := kv
      intro d1 m k b o hnd hv hb h
      simp only [List.map_cons, List.nodup_cons] at hnd
      obtain ⟨hk₁rest, hndrest⟩ := hnd
      by_cases hk : k₁ = k
      · subst hk
        simp [dictGet] at hv
        subst hv
        simp only [deepMergeE, mergeStep, hb] at h
        cases hi : deepMergeE b o with
        | error e => simp [hi] at h
        | ok mk =>
            simp only [hi] at h
            refine ⟨mk, rfl, ?_⟩
            rw [deepMergeE_not_mem rest _ _ _ hk₁rest h, dictGet_dictSet_self]
      · simp only [dictGet, if_neg hk] at hv
        have hbset : ∀ v, dictGet (dictSet d1 k₁ v) k = some (.dict b) :=
          fun v => by rw [dictGet_dictSet_ne d1 v (fun hh => hk hh.symm)]; exact hb
        cases v₁ with
        | dict v2 =>
            simp only [deepMergeE, mergeStep] at h
            cases hg : dictGet d1 k₁ with
            | none =>
                simp only [hg] at h
                cases hi : deepMergeE [] v2 with
                | error e => simp [hi] at h
                | ok inner =>
                    simp only [hi] at h
                    exact ih _ _ _ _ _ hndrest hv (hbset _) h
            | some w =>
                cases w with
                | dict mm =>
                    simp only [hg] at h
                    cases hi : deepMergeE mm v2 with
                    | error e => simp [hi] at h
                    | ok inner =>
                        simp only [hi] at h
                        exact ih _ _ _ _ _ hndrest hv (hbset _) h
                | scalar s => simp only [hg] at h; simp at h
                | list xs => simp only [hg] at h; simp at h
                | tuple xs => simp only [hg] at h; simp at h
                | set xs => simp only [hg] at h; simp at h
                | config kvs => simp only [hg] at h; simp at h
                | configList xs => simp only [hg] at h; simp at h
        | scalar s =>
            simp only [deepMergeE, mergeStep] at h
            exact ih _ _ _ _ _ hndrest hv (hbset _) h
        | list xs =>
            simp only [deepMergeE, mergeStep] at h
            exact ih _ _ _ _ _ hndrest hv (hbset _) h
        | tuple xs =>
            simp only [deepMergeE, mergeStep] at h
            exact ih _ _ _ _ _ hndrest hv (hbset _) h
        | set xs =>
            simp only [deepMergeE, mergeStep] at h
            exact ih _ _ _ _ _ hndrest hv (hbset _) h
        | config kvs =>
            simp only [deepMergeE, mergeStep] at h
            exact ih _ _ _ _ _ hndrest hv (hbset _) h
        | configList xs =>
            simp only [deepMergeE, mergeStep] at h
            exact ih _ _ _ _ _ hndrest hv (hbset _) h

/-! ### Sorting and ConfigList-key lemmas -/

theorem mem_sortStrings {s : String} {l : List String} :
    s ∈ sortStrings l ↔ s ∈ l :=
  (List.perm_insertionSort _ l).mem_iff

theorem sorted_sortStrings (l : List String) :
    (sortStrings l).Sorted (· ≤ ·) :=
  List.sorted_insertionSort _ l

theorem nodup_sortStrings {l : List String} (h : l.Nodup) :
    (sortStrings l).Nodup :=
  (List.perm_insertionSort _ l).nodup_iff.mpr h

theorem clKeys_head {xs : List Item} {k : String} (h : k ∈ clKeys xs) :
    k.data.head? = some '_' := by
  obtain ⟨i, -, rfl⟩ := List.mem_map.mp h
  rfl

theorem isScalarItem_iff {v : Item} :
    isScalarItem v = true ↔ ∃ s, v = Item.scalar s := by
  cases v <;> simp [isScalarItem]

/-! ## Claims -/

/-- C7 (confirmed): Deep-keys completeness — for
`data = {"a":1,"d":{"e":3,"h":[8,{"i":5}]}}`, `deep_keys()` yields exactly
the keys `a, d, d.e, d.h, d.h._0, d.h._1, d.h._1.i`: every top-level key
is emitted, nested child keys are prefixed by the parent key and a dot,
and sequence positions appear as underscore-prefixed indices. -/
theorem c7_deep_keys_completeness :
    configDeepKeys
      [("a", Item.scalar (.int 1)),
       ("d", Item.dict
          [("e", Item.scalar (.int 3)),
           ("h", Item.list
              [Item.scalar (.int 8),
               Item.dict [("i", Item.scalar (.int 5))]])])] =
      .ok ["a", "d", "d.e", "d.h", "d.h._0", "d.h._1", "d.h._1.i"] := rfl

/-- C8 (confirmed): Search by final segment — for
`data={"a":{"a":{"a":1}}}`, `search("a")` (exact matching on the last
dot-segment of every deep key) returns all three entries
`a ↦ {"a":{"a":1}}`, `a.a ↦ {"a":1}`, `a.a.a ↦ 1`, in `deep_keys()`
order; the returned values deconvert to the expected plain dicts. -/
theorem c8_search_by_final_segment :
    searchConfig
        [("a", Item.dict [("a", Item.dict [("a", Item.scalar (.int 1))])])]
        "a" =
      .ok [("a", Item.config [("a", Item.config [("a", Item.scalar (.int 1))])]),
           ("a.a", Item.config [("a", Item.scalar (.int 1))]),
           ("a.a.a", Item.scalar (.int 1))] ∧
    deconvertItem
        (Item.config [("a", Item.config [("a", Item.scalar (.int 1))])]) =
      Item.dict [("a", Item.dict [("a", Item.scalar (.int 1))])] ∧
    deconvertItem (Item.config [("a", Item.scalar (.int 1))]) =
      Item.dict [("a", Item.scalar (.int 1))] ∧
    configDeepKeys
        [("a", Item.dict [("a", Item.dict [("a", Item.scalar (.int 1))])])] =
      .ok ["a", "a.a", "a.a.a"] :=
  ⟨rfl, rfl, rfl, rfl⟩

/-- C5 (confirmed): `check_required_keys(keys, if_missing)` computes the
sorted, duplicate-free list of required keys absent from `deep_keys()`;
under `"raise"` it fails with `MissingKeysError` carrying that list
exactly when it is nonempty; under `"warn"` it warns exactly when it is
nonempty and returns the list regardless; under `"return"` it returns the
list silently; and any other policy fails with `InvalidArgumentError`
first, independently of the keys (no warning, no missing-keys work). -/
theorem c5_check_required_keys :
    (∀ (kvs : List (String × Item)) (keys : List String) (im : String),
      im ≠ "raise" → im ≠ "warn" → im ≠ "return" →
      checkRequiredKeys kvs keys im = .error .invalidArgument) ∧
    (∀ (kvs : List (String × Item)) (keys dk : List String),
      configDeepKeys kvs = .ok dk →
      ∃ missing : List String,
        (∀ s, s ∈ missing ↔ s ∈ keys ∧ s ∉ dk) ∧
        missing.Sorted (· ≤ ·) ∧ missing.Nodup ∧
        checkRequiredKeys kvs keys "raise" =
          (if missing = [] then .ok (missing, false)
           else .error (.missingKeys missing)) ∧
        checkRequiredKeys kvs keys "warn" =
          .ok (missing, decide (missing ≠ [])) ∧
        checkRequiredKeys kvs keys "return" = .ok (missing, false)) := by
  constructor
  · intro kvs keys im h1 h2 h3
    simp [checkRequiredKeys, h1, h2, h3]
  · intro kvs keys dk hdk
    refine ⟨sortStrings ((keys.filter fun s => decide (s ∉ dk)).dedup),
      ?_, sorted_sortStrings _, nodup_sortStrings (List.nodup_dedup _),
      ?_, ?_, ?_⟩
    · intro s
      rw [mem_sortStrings, List.mem_dedup, List.mem_filter]
      simp
    · have hcond : ¬ (("raise" : String) ≠ "raise" ∧ ("raise" : String) ≠ "warn"
          ∧ ("raise" : String) ≠ "return") := fun hc => hc.1 rfl
      by_cases hm : sortStrings ((keys.filter fun s => decide (s ∉ dk)).dedup) = []
      · simp [checkRequiredKeys, hcond, hdk, hm]
      · simp [checkRequiredKeys, hcond, hdk, hm]
    · have hcond : ¬ (("warn" : String) ≠ "raise" ∧ ("warn" : String) ≠ "warn"
          ∧ ("warn" : String) ≠ "return") := fun hc => hc.2.1 rfl
      simp only [checkRequiredKeys, hcond, hdk, if_false, ite_not]
      simp
      split_ifs with h <;> simp [h]
    · have hcond : ¬ (("return" : String) ≠ "raise" ∧ ("return" : String) ≠ "warn"
          ∧ ("return" : String) ≠ "return") := fun hc => hc.2.2 rfl
      by_cases hm : sortStrings ((keys.filter fun s => decide (s ∉ dk)).dedup) = []
      · simp [checkRequiredKeys, hcond, hdk, hm]
      · simp [checkRequiredKeys, hcond, hdk, hm]

/-- Witness for C5 at a concrete configuration and key lists. -/
theorem c5_check_required_keys_witness :
    checkRequiredKeys [("a", Item.scalar (.int 1))] ["z", "a"] "log" =
      .error .invalidArgument ∧
    ∃ missing : List String,
      (∀ s, s ∈ missing ↔ s ∈ ["z", "a"] ∧ s ∉ ["a"]) ∧
      missing.Sorted (· ≤ ·) ∧ missing.Nodup ∧
      checkRequiredKeys [("a", Item.scalar (.int 1))] ["z", "a"] "raise" =
        (if missing = [] then .ok (missing, false)
         else .error (.missingKeys missing)) ∧
      checkRequiredKeys [("a", Item.scalar (.int 1))] ["z", "a"] "warn" =
        .ok (missing, decide (missing ≠ [])) ∧
      checkRequiredKeys [("a", Item.scalar (.int 1))] ["z", "a"] "return" =
        .ok (missing, false) :=
  ⟨c5_check_required_keys.1 _ _ "log" (by decide) (by decide) (by decide),
   c5_check_required_keys.2 _ ["z", "a"] ["a"] rfl⟩

/-- C6 (confirmed): Defaults-merge precedence — with both `defaults` and
`data`, the effective content is `deep_merge(defaults, data)`: the
override wins wholesale on non-mapping values, nested mappings merge
key-wise recursively, and keys present only in the base survive.  In
particular `defaults={"a":1,"d":{"e":3}}` merged with
`data={"a":5,"d":{"f":9}}` yields `a == 5` and `d == {"e":3,"f":9}`. -/
theorem c6_defaults_merge :
    (configInit
        (some [("a", Item.scalar (.int 1)),
               ("d", Item.dict [("e", Item.scalar (.int 3))])])
        (some [("a", Item.scalar (.int 5)),
               ("d", Item.dict [("f", Item.scalar (.int 9))])]) =
      .ok [("a", Item.scalar (.int 5)),
           ("d", Item.dict [("e", Item.scalar (.int 3)),
                            ("f", Item.scalar (.int 9))])]) ∧
    (∀ (d1 d2 m : List (String × Item)) (k : String),
      k ∉ d2.map Prod.fst → deepMergeE d1 d2 = .ok m →
      dictGet m k = dictGet d1 k) ∧
    (∀ (d1 d2 m : List (String × Item)) (k : String) (v : Item),
      (d2.map Prod.fst).Nodup → dictGet d2 k = some v →
      (∀ kvs, v ≠ Item.dict kvs) → deepMergeE d1 d2 = .ok m →
      dictGet m k = some v) ∧
    (∀ (d1 d2 m : List (String × Item)) (k : String)
      (b o : List (String × Item)),
      (d2.map Prod.fst).Nodup → dictGet d2 k = some (Item.dict o) →
      dictGet d1 k = some (Item.dict b) → deepMergeE d1 d2 = .ok m →
      ∃ mk, deepMergeE b o = .ok mk ∧ dictGet m k = some (Item.dict mk)) :=
  ⟨rfl,
   fun d1 d2 m k => deepMergeE_not_mem d2 d1 m k,
   fun d1 d2 m k v => deepMergeE_override d2 d1 m k v,
   fun d1 d2 m k b o => deepMergeE_nested d2 d1 m k b o⟩

/-- Witness for C6's general merge clauses at concrete dictionaries. -/
theorem c6_defaults_merge_witness :
    dictGet [("a", Item.scalar (.int 1)), ("b", Item.scalar (.int 2))] "a" =
      dictGet [("a", Item.scalar (.int 1))] "a" ∧
    dictGet [("a", Item.scalar (.int 1)), ("b", Item.scalar (.int 2))] "b" =
      some (Item.scalar (.int 2)) ∧
    (∃ mk, deepMergeE [("e", Item.scalar (.int 3))]
        [("f", Item.scalar (.int 9))] = .ok mk ∧
      dictGet [("a", Item.scalar (.int 5)),
               ("d", Item.dict [("e", Item.scalar (.int 3)),
                                ("f", Item.scalar (.int 9))])] "d" =
        some (Item.dict mk)) :=
  ⟨c6_defaults_merge.2.1 [("a", Item.scalar (.int 1))]
      [("b", Item.scalar (.int 2))]
      [("a", Item.scalar (.int 1)), ("b", Item.scalar (.int 2))] "a"
      (by decide) rfl,
   c6_defaults_merge.2.2.1 [("a", Item.scalar (.int 1))]
      [("b", Item.scalar (.int 2))]
      [("a", Item.scalar (.int 1)), ("b", Item.scalar (.int 2))] "b"
      (Item.scalar (.int 2)) (by decide) rfl
      (fun kvs h => Item.noConfusion h) rfl,
   c6_defaults_merge.2.2.2
      [("a", Item.scalar (.int 1)), ("d", Item.dict [("e", Item.scalar (.int 3))])]
      [("a", Item.scalar (.int 5)), ("d", Item.dict [("f", Item.scalar (.int 9))])]
      [("a", Item.scalar (.int 5)),
       ("d", Item.dict [("e", Item.scalar (.int 3)),
                        ("f", Item.scalar (.int 9))])] "d"
      [("e", Item.scalar (.int 3))] [("f", Item.scalar (.int 9))]
      (by decide) rfl rfl rfl⟩

/-- C1 (corrected), counterexample: the stated invariant fails — a dunder
key at nesting depth 1 is accepted by construction without error, and
keyed assignment stores the reserved key `"convert"` without raising
`InvalidKeyError`. -/
theorem c1_counterexample :
    configInit Option.none
        (some [("a", Item.dict [("__x__", Item.scalar (.int 1))])]) =
      .ok [("a", Item.dict [("__x__", Item.scalar (.int 1))])] ∧
    validKey "__x__" = false ∧
    configSetItem [] "convert" (Item.scalar (.int 1)) =
      .ok [("convert", Item.scalar (.int 1))] ∧
    "convert" ∈ PROTECTED_KEYS :=
  ⟨rfl, by decide, rfl, by decide⟩

/-- C1 (corrected): Key validity is enforced only on the top-level keys
of `data` and `defaults` at construction time — construction succeeds
exactly when all checked top-level keys pass the identifier / dunder /
private / reserved tests, and otherwise fails with `InvalidKeyError`
(functionally, with no partial content produced); nested keys are not
validated at construction, and keyed/attribute assignment stores any key
without validation. -/
theorem c1_key_validation :
    (∀ dt, configInit Option.none (some dt) = .ok dt ↔
      ∀ k ∈ dt.map Prod.fst, validKey k = true) ∧
    (∀ df, configInit (some df) Option.none = .ok df ↔
      ∀ k ∈ df.map Prod.fst, validKey k = true) ∧
    (∀ df dt m, configInit (some df) (some dt) = .ok m →
      (∀ k ∈ df.map Prod.fst, validKey k = true) ∧
      ∀ k ∈ dt.map Prod.fst, validKey k = true) ∧
    (∀ dt (k : String), k ∈ dt.map Prod.fst → validKey k = false →
      ∃ k', configInit Option.none (some dt) = .error (.invalidKey k')) ∧
    (∀ kvs (k : String) (v v' : Item), convertItem v = .ok v' →
      configSetItem kvs k v = .ok (dictSet kvs k v')) := by
  refine ⟨?_, ?_, ?_, ?_, ?_⟩
  · intro dt
    constructor
    · intro h
      cases hck : checkKeys (dt.map Prod.fst) with
      | ok u =>
          cases u
          exact (checkKeys_ok_iff _).mp hck
      | error e => simp [configInit, hck] at h
    · intro hall
      simp [configInit, (checkKeys_ok_iff _).mpr hall]
  · intro df
    constructor
    · intro h
      cases hck : checkKeys (df.map Prod.fst) with
      | ok u =>
          cases u
          exact (checkKeys_ok_iff _).mp hck
      | error e => simp [configInit, hck] at h
    · intro hall
      simp [configInit, (checkKeys_ok_iff _).mpr hall]
  · intro df dt m h
    cases hdf : checkKeys (df.map Prod.fst) with
    | error e => simp [configInit, hdf] at h
    | ok u =>
        cases u
        cases hdt : checkKeys (dt.map Prod.fst) with
        | error e => simp [configInit, hdf, hdt] at h
        | ok u =>
            cases u
            exact ⟨(checkKeys_ok_iff _).mp hdf, (checkKeys_ok_iff _).mp hdt⟩
  · intro dt k hk hv
    obtain ⟨k', h1, _⟩ := checkKeys_error_of_invalid hk hv
    exact ⟨k', by simp [configInit, h1]⟩
  · intro kvs k v v' hv
    simp [configSetItem, hv]

/-- Witness for C1 at a concrete valid construction and assignment. -/
theorem c1_key_validation_witness :
    configInit Option.none (some [("level_1", Item.scalar (.int 1))]) =
      .ok [("level_1", Item.scalar (.int 1))] ∧
    configSetItem [] "q" (Item.scalar (.int 3)) =
      .ok [("q", Item.scalar (.int 3))] :=
  ⟨(c1_key_validation.1 _).mpr (by decide),
   c1_key_validation.2.2.2.2 [] "q" _ _ rfl⟩

/-- C2 (corrected), counterexample: the round-trip fails as universally
stated — for the RawNode `{"8a": 1}` (built only from dicts and scalars)
the conversion raises `InvalidKeyError` instead of producing a value, so
`deconvert(convert(x)) == x` does not hold there. -/
theorem c2_counterexample :
    isDLS (Item.dict [("8a", Item.scalar (.int 1))]) = true ∧
    convertItem (Item.dict [("8a", Item.scalar (.int 1))]) =
      .error (.invalidKey "8a") ∧
    ¬ ∃ y, convertItem (Item.dict [("8a", Item.scalar (.int 1))]) = .ok y ∧
      deconvertItem y = Item.dict [("8a", Item.scalar (.int 1))] := by
  refine ⟨rfl, rfl, ?_⟩
  rintro ⟨y, hy, -⟩
  rw [show convertItem (Item.dict [("8a", Item.scalar (.int 1))]) =
    .error (.invalidKey "8a") from rfl] at hy
  exact Except.noConfusion hy

/-- C2 (corrected): Round-trip on dict/list/scalar RawNodes, whenever the
conversion succeeds (i.e. every mapping key passes key validation):
`deconvert(convert(x)) == x`. -/
theorem c2_roundtrip (x y : Item) (hx : isDLS x = true)
    (h : convertItem x = .ok y) : deconvertItem y = x :=
  roundtripDLS x hx y h

/-- Witness for C2 at a concrete nested RawNode. -/
theorem c2_roundtrip_witness :
    deconvertItem
        (Item.config [("a", Item.configList
          [Item.scalar (.int 1), Item.config [("b", Item.scalar .none)]])]) =
      Item.dict [("a", Item.list
        [Item.scalar (.int 1), Item.dict [("b", Item.scalar .none)]])] :=
  c2_roundtrip
    (Item.dict [("a", Item.list
      [Item.scalar (.int 1), Item.dict [("b", Item.scalar .none)]])])
    (Item.config [("a", Item.configList
      [Item.scalar (.int 1), Item.config [("b", Item.scalar .none)]])])
    rfl rfl

/-- C4 (corrected), counterexample: totality fails as stated — the
wrapper `Config({"a": {"9x": 1}})` is constructible (its top-level key is
valid), yet `convert()` raises `InvalidKeyError` on the nested mapping
instead of turning every reachable dict into a `MappingConfig`. -/
theorem c4_counterexample :
    configInit Option.none
        (some [("a", Item.dict [("9x", Item.scalar (.int 1))])]) =
      .ok [("a", Item.dict [("9x", Item.scalar (.int 1))])] ∧
    convertItem (Item.dict [("a", Item.dict [("9x", Item.scalar (.int 1))])]) =
      .error (.invalidKey "9x") ∧
    ¬ ∃ y, convertItem
        (Item.dict [("a", Item.dict [("9x", Item.scalar (.int 1))])]) =
      .ok y := by
  refine ⟨rfl, rfl, ?_⟩
  rintro ⟨y, hy⟩
  rw [show convertItem
      (Item.dict [("a", Item.dict [("9x", Item.scalar (.int 1))])]) =
    .error (.invalidKey "9x") from rfl] at hy
  exact Except.noConfusion hy

/-- C4 (corrected): Whenever conversion succeeds on raw parser output, it
leaves no raw container behind (every dict has become a `MappingConfig`,
every list/tuple/set a `SequenceConfig`); scalars pass through unchanged;
a dict converts to a `MappingConfig` and a list/tuple/set to a
`SequenceConfig` at the top; and conversion is idempotent: converting a
conversion result returns it unchanged, so applying `convert()` twice
equals applying it once. -/
theorem c4_conversion_closure :
    (∀ x y, isRaw x = true → convertItem x = .ok y →
      fullyConverted y = true) ∧
    (∀ s, convertItem (Item.scalar s) = .ok (Item.scalar s)) ∧
    (∀ x y, convertItem x = .ok y → convertItem y = .ok y) ∧
    (∀ kvs y, convertItem (Item.dict kvs) = .ok y →
      ∃ kvs', y = Item.config kvs') ∧
    (∀ xs y, convertItem (Item.list xs) = .ok y →
      ∃ xs', y = Item.configList xs') ∧
    (∀ xs y, convertItem (Item.tuple xs) = .ok y →
      ∃ xs', y = Item.configList xs') ∧
    (∀ xs y, convertItem (Item.set xs) = .ok y →
      ∃ xs', y = Item.configList xs') := by
  refine ⟨fun x y hx h => convertRawFull x hx y h,
    fun s => by simp [convertItem],
    fun x y h => convertItem_fix h, ?_, ?_, ?_, ?_⟩
  · intro kvs y h
    cases hcp : convertPairs kvs with
    | error e => simp [convertItem, hcp] at h
    | ok kvs' =>
        cases hck : checkKeys (kvs'.map Prod.fst) with
        | error e => simp [convertItem, hcp, hck] at h
        | ok u =>
            simp only [convertItem, hcp, hck, Except.ok.injEq] at h
            exact ⟨kvs', h.symm⟩
  · intro xs y h
    cases hce : convertElems xs with
    | error e => simp [convertItem, hce] at h
    | ok xs' =>
        simp only [convertItem, hce, Except.ok.injEq] at h
        exact ⟨xs', h.symm⟩
  · intro xs y h
    cases hce : convertElems xs with
    | error e => simp [convertItem, hce] at h
    | ok xs' =>
        simp only [convertItem, hce, Except.ok.injEq] at h
        exact ⟨xs', h.symm⟩
  · intro xs y h
    cases hce : convertElems xs with
    | error e => simp [convertItem, hce] at h
    | ok xs' =>
        simp only [convertItem, hce, Except.ok.injEq] at h
        exact ⟨xs', h.symm⟩

/-- Witness for C4 at a concrete raw value: full conversion and
idempotence at `{"a": [2, (3,)]}`. -/
theorem c4_conversion_closure_witness :
    fullyConverted
        (Item.config [("a", Item.configList
          [Item.scalar (.int 2), Item.configList [Item.scalar (.int 3)]])]) =
      true ∧
    convertItem
        (Item.config [("a", Item.configList
          [Item.scalar (.int 2), Item.configList [Item.scalar (.int 3)]])]) =
      .ok (Item.config [("a", Item.configList
          [Item.scalar (.int 2), Item.configList [Item.scalar (.int 3)]])]) :=
  ⟨c4_conversion_closure.1
      (Item.dict [("a", Item.list
        [Item.scalar (.int 2), Item.tuple [Item.scalar (.int 3)]])])
      (Item.config [("a", Item.configList
        [Item.scalar (.int 2), Item.configList [Item.scalar (.int 3)]])])
      rfl rfl,
   c4_conversion_closure.2.2.1
      (Item.dict [("a", Item.list
        [Item.scalar (.int 2), Item.tuple [Item.scalar (.int 3)]])])
      (Item.config [("a", Item.configList
        [Item.scalar (.int 2), Item.configList [Item.scalar (.int 3)]])])
      rfl⟩

/-- C3 (corrected), counterexample: for `s = ConfigList([10, 20, 30])`,
`s.get("2")` returns the default (`None`) rather than the element, while
`s.get("_2")` and positional `s[2]` both return `30` — so the three
access forms of the claim do not all agree. -/
theorem c3_counterexample :
    clGet [Item.scalar (.int 10), Item.scalar (.int 20), Item.scalar (.int 30)]
        "2" (Item.scalar .none) = .ok (Item.scalar Scalar.none) ∧
    clGetItemNat
        [Item.scalar (.int 10), Item.scalar (.int 20), Item.scalar (.int 30)]
        2 = .ok (Item.scalar (.int 30)) ∧
    clGet [Item.scalar (.int 10), Item.scalar (.int 20), Item.scalar (.int 30)]
        "_2" (Item.scalar .none) = .ok (Item.scalar (.int 30)) ∧
    Item.scalar Scalar.none ≠ Item.scalar (Scalar.int 30) := by
  refine ⟨rfl, rfl, rfl, ?_⟩
  intro h
  injection h with h'
  exact Scalar.noConfusion h'

/-- C3 (corrected): For a sequence wrapper, string indexing with either
the underscore-prefixed or the bare digit form of a position equals
positional indexing (`s["_i"] = s["i"] = s[i]`), and `s.get` agrees with
them for the underscore-prefixed form (the one in `keys()`); but `s.get`
with a bare digit string returns the supplied default, because `keys()`
only contains underscore-prefixed positions. -/
theorem c3_dotted_address_equivalence (xs : List Item) (key : String)
    (n : Nat) (dflt : Item) (h : strIdx key = some n) :
    clGetItemStr xs key = clGetItemNat xs n ∧
    (key ∈ clKeys xs → clGet xs key dflt = clGetItemNat xs n) ∧
    (key.data.head? ≠ some '_' → clGet xs key dflt = .ok dflt) := by
  have h1 : clGetItemStr xs key = clGetItemNat xs n := by
    simp [clGetItemStr, h, clGetItemNat]
  refine ⟨h1, ?_, ?_⟩
  · intro hmem
    rw [clGet, if_pos hmem, h1]
  · intro hhead
    have hnot : key ∉ clKeys xs := fun hmem => hhead (clKeys_head hmem)
    rw [clGet, if_neg hnot]

/-- Witness for C3 at `ConfigList([10, 20, 30])` and index `_1`/`1`. -/
theorem c3_dotted_address_equivalence_witness :
    clGetItemStr
        [Item.scalar (.int 10), Item.scalar (.int 20), Item.scalar (.int 30)]
        "_1" =
      clGetItemNat
        [Item.scalar (.int 10), Item.scalar (.int 20), Item.scalar (.int 30)]
        1 ∧
    clGet [Item.scalar (.int 10), Item.scalar (.int 20), Item.scalar (.int 30)]
        "_1" (Item.scalar .none) =
      clGetItemNat
        [Item.scalar (.int 10), Item.scalar (.int 20), Item.scalar (.int 30)]
        1 :=
  ⟨(c3_dotted_address_equivalence
      [Item.scalar (.int 10), Item.scalar (.int 20), Item.scalar (.int 30)]
      "_1" 1 (Item.scalar .none) rfl).1,
   (c3_dotted_address_equivalence
      [Item.scalar (.int 10), Item.scalar (.int 20), Item.scalar (.int 30)]
      "_1" 1 (Item.scalar .none) rfl).2.1 (by decide)⟩

/-- C9 (corrected), counterexample: the empty mapping is flat, but its
`depth` raises `ValueError` (Python's `max` of an empty sequence) rather
than returning `0`. -/
theorem c9_counterexample :
    configDepth ([] : List (String × Item)) = .error .valueError ∧
    configDepth ([] : List (String × Item)) ≠ .ok 0 := by
  refine ⟨rfl, ?_⟩
  intro h
  rw [show configDepth ([] : List (String × Item)) = .error .valueError
    from rfl] at h
  exact Except.noConfusion h

/-- C9 (corrected): Whenever `deep_keys()` is nonempty, `depth` equals
the maximum dot-count across the deep keys; in particular every nonempty
flat mapping (all values scalar, keys valid) has depth `0`.  The empty
mapping instead raises `ValueError`. -/
theorem c9_depth :
    (∀ (kvs : List (String × Item)) (ks : List String),
      configDeepKeys kvs = .ok ks → ks ≠ [] →
      ∃ n, configDepth kvs = .ok n ∧ (∀ k ∈ ks, countDots k ≤ n) ∧
        ∃ k ∈ ks, countDots k = n) ∧
    (∀ kvs : List (String × Item), kvs ≠ [] →
      (∀ kv ∈ kvs, isScalarItem kv.2 = true) →
      (∀ k ∈ kvs.map Prod.fst, validKey k = true) →
      configDepth kvs = .ok 0) := by
  constructor
  · intro kvs ks hks hne
    cases ks with
    | nil => exact absurd rfl hne
    | cons k0 krest =>
        refine ⟨(krest.map countDots).foldl max (countDots k0), ?_, ?_, ?_⟩
        · simp [configDepth, hks]
        · intro k hk
          refine le_foldl_max (countDots k0) (krest.map countDots)
            (countDots k) ?_
          rcases List.mem_cons.mp hk with rfl | hk'
          · exact List.mem_cons_self _ _
          · exact List.mem_cons_of_mem _ (List.mem_map_of_mem countDots hk')
        · have hmem := foldl_max_mem (countDots k0) (krest.map countDots)
          rcases List.mem_cons.mp hmem with h' | h'
          · exact ⟨k0, List.mem_cons_self _ _, h'.symm⟩
          · obtain ⟨k, hk, hkeq⟩ := List.mem_map.mp h'
            exact ⟨k, List.mem_cons_of_mem _ hk, hkeq⟩
  · intro kvs hne hscalar hvalid
    have hsc : ∀ kv ∈ kvs, ∃ s, kv.2 = Item.scalar s :=
      fun kv h => isScalarItem_iff.mp (hscalar kv h)
    have hcp : convertPairs kvs = .ok kvs := convertPairs_scalar hsc
    have hck : checkKeys (kvs.map Prod.fst) = .ok () :=
      (checkKeys_ok_iff _).mpr hvalid
    have hdk : configDeepKeys kvs = .ok (kvs.map Prod.fst) := by
      simp [configDeepKeys, convertItem, hcp, hck, deepKeysC,
        deepKeysPairs_scalar hsc]
    have hzero : ∀ k ∈ kvs.map Prod.fst, countDots k = 0 := by
      intro k hk
      have h1 := hvalid k hk
      simp only [validKey, Bool.and_eq_true] at h1
      exact countDots_eq_zero_of_isIdentKey h1.1.1.1
    cases hkvs : kvs with
    | nil => exact absurd hkvs hne
    | cons kv rest =>
        subst hkvs
        simp only [configDepth, hdk, List.map_cons]
        have hmem := foldl_max_mem (countDots kv.1)
          ((rest.map Prod.fst).map countDots)
        have hall : ∀ x ∈ countDots kv.1 ::
            (rest.map Prod.fst).map countDots, x = 0 := by
          intro x hx
          rcases List.mem_cons.mp hx with rfl | hx'
          · exact hzero _ (by simp)
          · obtain ⟨k, hk, hkeq⟩ := List.mem_map.mp hx'
            rw [← hkeq]
            exact hzero _ (List.mem_cons_of_mem _ hk)
        rw [hall _ hmem]

/-- Witness for C9 at a nested and at a flat concrete mapping. -/
theorem c9_depth_witness :
    (∃ n, configDepth [("a", Item.scalar (.int 1)),
        ("d", Item.dict [("e", Item.scalar (.int 3))])] = .ok n ∧
      (∀ k ∈ ["a", "d", "d.e"], countDots k ≤ n) ∧
      ∃ k ∈ ["a", "d", "d.e"], countDots k = n) ∧
    configDepth [("a", Item.scalar (.int 1))] = .ok 0 :=
  ⟨c9_depth.1 [("a", Item.scalar (.int 1)),
      ("d", Item.dict [("e", Item.scalar (.int 3))])] ["a", "d", "d.e"]
      rfl (by decide),
   c9_depth.2 [("a", Item.scalar (.int 1))] (by simp) (by decide) (by decide)⟩

/-- C10 (corrected), counterexample: assignment stores without key
validation, so after `c["8z"] = 5` (which succeeds) the read `c["8z"]`
raises `InvalidKeyError` during the conversion performed by
`__getitem__`, instead of returning the stored value. -/
theorem c10_counterexample :
    configSetItem [] "8z" (Item.scalar (.int 5)) =
      .ok [("8z", Item.scalar (.int 5))] ∧
    configGetItem [("8z", Item.scalar (.int 5))] "8z" =
      .error (.invalidKey "8z") ∧
    configGetItem [("8z", Item.scalar (.int 5))] "8z" ≠
      .ok (Item.scalar (.int 5)) := by
  refine ⟨rfl, rfl, ?_⟩
  intro h
  rw [show configGetItem [("8z", Item.scalar (.int 5))] "8z" =
    .error (.invalidKey "8z") from rfl] at h
  exact Except.noConfusion h

/-- C10 (corrected): Get-after-set round trip for a valid dot-free key on
a convertible wrapper — the assignment stores the converted value, the
subsequent read returns exactly that converted value, and the bindings of
all other keys are unchanged. -/
theorem c10_get_after_set (kvs : List (String × Item)) (k : String)
    (v v' : Item) (c₀ : Item) (hc : convertItem (Item.dict kvs) = .ok c₀)
    (hk : checkKey k = .ok ()) (hdot : '.' ∉ k.data)
    (hv : convertItem v = .ok v') :
    configSetItem kvs k v = .ok (dictSet kvs k v') ∧
    configGetItem (dictSet kvs k v') k = .ok v' ∧
    ∀ k', k' ≠ k → dictGet (dictSet kvs k v') k' = dictGet kvs k' := by
  obtain ⟨kvs'', hcp, hck⟩ : ∃ kvs'', convertPairs kvs = .ok kvs'' ∧
      checkKeys (kvs''.map Prod.fst) = .ok () := by
    cases hcp : convertPairs kvs with
    | error e => simp [convertItem, hcp] at hc
    | ok kvs'' =>
        cases hck : checkKeys (kvs''.map Prod.fst) with
        | error e => simp [convertItem, hcp, hck] at hc
        | ok u => exact ⟨kvs'', rfl, by cases u; exact hck⟩
  have hvfix := convertItem_fix hv
  have hcp2 : convertPairs (dictSet kvs k v') = .ok (dictSet kvs'' k v') :=
    convertPairs_dictSet hcp hvfix
  have hck2 : checkKeys ((dictSet kvs'' k v').map Prod.fst) = .ok () := by
    rw [keys_dictSet]
    by_cases hmem : k ∈ kvs''.map Prod.fst
    · rw [if_pos hmem]
      exact hck
    · rw [if_neg hmem]
      exact checkKeys_append_singleton hck hk
  have hconv2 : convertItem (Item.dict (dictSet kvs k v')) =
      .ok (.config (dictSet kvs'' k v')) := by
    simp [convertItem, hcp2, hck2]
  have hproper : isDeepKeyProper k = false :=
    isDeepKeyProper_eq_false_of_no_dot hdot
  refine ⟨by simp [configSetItem, hv], ?_,
    fun k' hk' => dictGet_dictSet_ne kvs v' hk'⟩
  simp [configGetItem, hproper, hconv2, dictGet_dictSet_self]

/-- Witness for C10: set `"b"` to a nested dict on `Config({"a": 1})` and
read it back; the binding at `"a"` is untouched. -/
theorem c10_get_after_set_witness :
    configSetItem [("a", Item.scalar (.int 1))] "b"
        (Item.dict [("c", Item.scalar (.int 2))]) =
      .ok [("a", Item.scalar (.int 1)),
           ("b", Item.config [("c", Item.scalar (.int 2))])] ∧
    configGetItem
        [("a", Item.scalar (.int 1)),
         ("b", Item.config [("c", Item.scalar (.int 2))])] "b" =
      .ok (Item.config [("c", Item.scalar (.int 2))]) ∧
    dictGet
        [("a", Item.scalar (.int 1)),
         ("b", Item.config [("c", Item.scalar (.int 2))])] "a" =
      dictGet [("a", Item.scalar (.int 1))] "a" :=
  ⟨(c10_get_after_set [("a", Item.scalar (.int 1))] "b"
      (Item.dict [("c", Item.scalar (.int 2))])
      (Item.config [("c", Item.scalar (.int 2))])
      (Item.config [("a", Item.scalar (.int 1))])
      rfl rfl (by decide) rfl).1,
   (c10_get_after_set [("a", Item.scalar (.int 1))] "b"
      (Item.dict [("c", Item.scalar (.int 2))])
      (Item.config [("c", Item.scalar (.int 2))])
      (Item.config [("a", Item.scalar (.int 1))])
      rfl rfl (by decide) rfl).2.1,
   (c10_get_after_set [("a", Item.scalar (.int 1))] "b"
      (Item.dict [("c", Item.scalar (.int 2))])
      (Item.config [("c", Item.scalar (.int 2))])
      (Item.config [("a", Item.scalar (.int 1))])
      rfl rfl (by decide) rfl).2.2 "a" (by decide)⟩

end HolyDiver
